import Mathlib

/-!
# Verification of the federated aggregation / population-based training utilities

Shallow embedding of `src/fed/utils.py` (functions `compute_softmax_weighted_avg`,
`compute_reward_weighted_avg`, `synchronize`, `uniform_initialize`,
`population_based_train`, `explore`, `explore_helper`, and the `fed_learn`
callback produced by `fed_pbt_train`).

Modelling conventions:
* Python floats are modelled as `ℚ` wherever the code only moves them around or
  performs exact field operations; the softmax path, which uses `np.exp`, is
  modelled over `ℝ`.
* numpy's non-finite float results (`nan` / `inf`, e.g. from division by a zero
  reward sum) are modelled by the scalar type `NpF` with an absorbing
  element `NpF.nonfin`.
* A dictionary `agent id → value` is modelled as an association list
  `List (Nat × _)` in iteration order; `list(d.values())` is `map Prod.snd`.
* numpy calls that raise (`reshape` with the wrong size, broadcasting with
  mismatched leading dimensions, `np.max` of an empty array) make the embedded
  function return `none`.
* The global `random` generator is an explicit oracle `Rng` holding the stream
  of `random.random()` outputs and the stream of indices that successive
  `random.choice` calls pick; each call consumes one element of its stream.
* Python's stable `sorted` is `List.mergeSort`, Python slices `l[k:]` / `l[:k]`
  (including negative indices) are `pySliceFrom` / `pySliceTo`.
-/

namespace Fed

/-- A numpy float64 scalar: a finite rational, or a non-finite value
(`nan`/`inf`), which absorbs under arithmetic. -/
inductive NpF where
  | fin (q : ℚ)
  | nonfin
  deriving DecidableEq, Repr

/-- Addition on numpy scalars: non-finite absorbs. -/
def NpF.add : NpF → NpF → NpF
  | .fin a, .fin b => .fin (a + b)
  | _, _ => .nonfin

/-- Multiplication on numpy scalars: non-finite absorbs
(`0 * inf` and `0 * nan` are both `nan`). -/
def NpF.mul : NpF → NpF → NpF
  | .fin a, .fin b => .fin (a * b)
  | _, _ => .nonfin

instance : Add NpF := ⟨NpF.add⟩

instance : Mul NpF := ⟨NpF.mul⟩

/-- numpy float division of finite scalars: division by zero gives a
non-finite result (`0/0 = nan`, `x/0 = ±inf`). -/
def npDiv (a b : ℚ) : NpF := if b = 0 then .nonfin else .fin (a / b)

/-- Elementwise sum of the rows of a 2-d array, as computed by
Python's `sum(rows)` (which starts from scalar `0`; for a non-empty list this
is the elementwise sum of the rows). -/
def sumRows {α : Type} [Add α] (rows : List (List α)) : List α :=
  match rows with
  | [] => []
  | r :: rs => rs.foldl (fun u v => List.zipWith (· + ·) u v) r

/-- The oracle for Python's global `random`: the stream of future
`random.random()` outputs and the stream of indices that future
`random.choice` calls select. -/
structure Rng where
  reals : List ℚ
  choices : List Nat
  deriving DecidableEq, Repr

/-- `random.random()`: consume one element of the real stream. -/
def nextReal (g : Rng) : ℚ × Rng :=
  (g.reals.headD 0, { g with reals := g.reals.tail })

/-- `random.choice(l)`: consume one element of the choice stream and pick the
corresponding element of `l` (indices are reduced mod `l.length`). -/
def pyChoice {α : Type} (l : List α) (d : α) (g : Rng) : α × Rng :=
  (l.getD (g.choices.headD 0 % l.length) d, { g with choices := g.choices.tail })

/-- Python slice `l[k:]` with an arbitrary integer (possibly negative) index. -/
def pySliceFrom {α : Type} (l : List α) (k : ℤ) : List α :=
  if k < 0 then l.drop ((l.length : ℤ) + k).toNat else l.drop k.toNat

/-- Python slice `l[:k]` with an arbitrary integer (possibly negative) index. -/
def pySliceTo {α : Type} (l : List α) (k : ℤ) : List α :=
  if k < 0 then l.take ((l.length : ℤ) + k).toNat else l.take k.toNat

/-- `sorted(policy_reward_mean.items(), key=lambda kv: kv[1])`:
stable sort of the reward association list by reward value. -/
def pbt_sorted (rewards : List (Nat × ℚ)) : List (Nat × ℚ) :=
  rewards.mergeSort (fun a b => decide (a.2 ≤ b.2))

/-- `upper_quantile`: agent ids of
`sorted_rewards[int(math.floor(quantile * -num_agents)):]`. -/
def upper_quantile (q : ℚ) (num_agents : Nat) (rewards : List (Nat × ℚ)) : List Nat :=
  (pySliceFrom (pbt_sorted rewards) ⌊q * (-(num_agents : ℚ))⌋).map Prod.fst

/-- `lower_quantile`: agent ids of
`sorted_rewards[:int(math.ceil(quantile * num_agents))]`. -/
def lower_quantile (q : ℚ) (num_agents : Nat) (rewards : List (Nat × ℚ)) : List Nat :=
  (pySliceTo (pbt_sorted rewards) ⌈q * (num_agents : ℚ)⌉).map Prod.fst

/-- `compute_reward_weighted_avg(weights, alphas, args)`:
reward-proportional weighted average `Σ_i (reward_i / Σ reward_j) · w_i`.
The numpy shape requirements (`reshape(num_agents, 1)` and broadcasting
against the weight rows) demand both dictionaries have `num_agents` entries;
otherwise numpy raises, modelled as `none`.  There is no key comparison and
no check that the reward sum is non-zero: a zero sum flows through `npDiv`
and yields non-finite entries. -/
def compute_reward_weighted_avg (weights : List (Nat × List ℚ)) (alphas : List (Nat × ℚ))
    (num_agents : Nat) : Option (List NpF) :=
  let alpha_vals := alphas.map Prod.snd
  let weight_vals := weights.map Prod.snd
  if alphas.length = num_agents ∧ weights.length = num_agents then
    let soft := alpha_vals.map (fun a => npDiv a alpha_vals.sum)
    some (sumRows (List.zipWith (fun s w => w.map (fun x => s * NpF.fin x)) soft weight_vals))
  else
    none

/-- `np.max` over a (non-empty) vector; `np.max` of an empty array raises, the
callers below gate on that. -/
noncomputable def npMaxR (l : List ℝ) : ℝ :=
  match l with
  | [] => 0
  | x :: xs => xs.foldl max x

/-- The inner `softmax` of `compute_softmax_weighted_avg`:
`e_x = np.exp(beta * (x - np.max(x))); e_x / e_x.sum()`. -/
noncomputable def softmax_vals (beta : ℝ) (xs : List ℝ) : List ℝ :=
  let e := xs.map (fun x => Real.exp (beta * (x - npMaxR xs)))
  e.map (fun v => v / e.sum)

/-- `compute_softmax_weighted_avg(weights, alphas, args)`: softmax-tempered
weighted average of the weight rows.  The `reshape(num_agents, 1)`,
the broadcast of `np.multiply`, and `np.max` of an empty array require
`num_agents` entries on both sides and a positive population; otherwise numpy
raises, modelled as `none`.  No key comparison is performed. -/
noncomputable def compute_softmax_weighted_avg (weights : List (Nat × List ℝ))
    (alphas : List (Nat × ℝ)) (temp : ℝ) (num_agents : Nat) : Option (List ℝ) :=
  if alphas.length = num_agents ∧ weights.length = num_agents ∧ 0 < num_agents then
    let soft := softmax_vals temp (alphas.map Prod.snd)
    some (sumRows (List.zipWith (fun s w => w.map (fun x => s * x)) soft (weights.map Prod.snd)))
  else
    none

/-- `synchronize(agent, weights, args)`: set every agent `0 … num_agents-1`
to the parameter set `w`. -/
def synchronize {α : Type} (num_agents : Nat) (w : α) (W : Nat → α) : Nat → α :=
  fun i => if i < num_agents then w else W i

/-- `uniform_initialize(agent, args)`: broadcast agent 0's parameter set to the
whole population. -/
def uniform_initialize {α : Type} (num_agents : Nat) (W : Nat → α) : Nat → α :=
  synchronize num_agents (W 0) W

/-- One step of the dict comprehension inside `population_based_train`:
agent `agent_id` keeps its weights unless it is in the lower quantile, in
which case it receives the weights of a randomly chosen upper-quantile
agent (a fresh `random.choice` per low performer). -/
def pbt_step {α : Type} (W : Nat → α) (lower upper : List Nat)
    (acc : (Nat → α) × Rng) (agent_id : Nat) : (Nat → α) × Rng :=
  if agent_id ∈ lower then
    let (b, g) := pyChoice upper 0 acc.2
    (Function.update acc.1 agent_id (W b), g)
  else
    (Function.update acc.1 agent_id (W agent_id), acc.2)

/-- `population_based_train(agent, result, args)` restricted to its effect on
the weight collection: on a non-empty reward signal, replace each lower
quantile agent's weights by a randomly chosen upper-quantile agent's weights,
leaving all other agents as they were. -/
def population_based_train {α : Type} (q : ℚ) (num_agents : Nat) (W : Nat → α)
    (policy_reward_mean : List (Nat × ℚ)) (g : Rng) : (Nat → α) × Rng :=
  if policy_reward_mean.isEmpty then (W, g)
  else
    (List.range num_agents).foldl
      (pbt_step W (lower_quantile q num_agents policy_reward_mean)
        (upper_quantile q num_agents policy_reward_mean)) (W, g)

/-- The mutable hyperparameter state of one policy, as touched by `explore`:
the read-only current learning rate `cur_lr`, the written learning-rate
schedule (`ConstantSchedule(new_val)`, modelled by its constant), and the
`config` entries `gamma` and `entropy_coeff`. -/
structure PolicyState where
  cur_lr : ℚ
  lr_schedule : ℚ
  gamma : ℚ
  entropy_coeff : ℚ
  deriving DecidableEq, Repr

/-- The configuration object `args` (the fields consumed by the embedded
functions). -/
structure Args where
  num_agents : Nat
  interval : Nat
  temp : ℚ
  quantile : ℚ
  explore_params : List String
  lr : List ℚ
  gammas : List ℚ
  entropy_coeffs : List ℚ
  resample_probability : ℚ
  deriving DecidableEq, Repr

/-- `explore_helper(exemplar, distribution, args)`: with probability
`resample_probability`, or whenever the exemplar value is not in the
distribution, resample uniformly; otherwise move to the previous
(`random.random() > 0.5`) or next neighbour of the exemplar, clamped to the
ends of the distribution. -/
def explore_helper (exemplar : ℚ) (distribution : List ℚ) (args : Args) (g : Rng) : ℚ × Rng :=
  let (r1, g1) := nextReal g
  if r1 < args.resample_probability ∨ exemplar ∉ distribution then
    pyChoice distribution 0 g1
  else
    let (r2, g2) := nextReal g1
    if 1 / 2 < r2 then
      (distribution.getD (max 0 (distribution.indexOf exemplar - 1)) 0, g2)
    else
      (distribution.getD (min (distribution.length - 1) (distribution.indexOf exemplar + 1)) 0, g2)

/-- One `if param in args.explore_params:` block of `explore`'s loop body:
read the exemplar's current value of the parameter (via `sel`), run
`explore_helper` on it, and write the perturbed value into the low
performer's live policy state (via `upd`).  The three blocks of the source
instantiate this with (`cur_lr`, write `lr_schedule`), (`gamma`, write
`gamma`) and (`entropy_coeff`, write `entropy_coeff`). -/
def explore_param (args : Args) (pname : String) (sel : PolicyState → ℚ)
    (upd : PolicyState → ℚ → PolicyState) (dist : List ℚ) (exemplar_id agent_id : Nat)
    (acc : (Nat → PolicyState) × Rng) : (Nat → PolicyState) × Rng :=
  if pname ∈ args.explore_params then
    let (new_val, g) := explore_helper (sel (acc.1 exemplar_id)) dist args acc.2
    (Function.update acc.1 agent_id (upd (acc.1 agent_id) new_val), g)
  else acc

/-- The body of the `for agent_id in lower_quantile` loop of `explore`:
draw one exemplar (`random.choice(upper_quantile)`), then perturb each
declared tunable parameter of `agent_id`, reading the exemplar's current
value from the live policy map — the single drawn `exemplar_id` is shared by
all three parameter blocks. -/
def explore_step (args : Args) (upper : List Nat) (acc : (Nat → PolicyState) × Rng)
    (agent_id : Nat) : (Nat → PolicyState) × Rng :=
  let (exemplar_id, g0) := pyChoice upper 0 acc.2
  explore_param args "entropy_coeff" (fun p => p.entropy_coeff)
    (fun p v => { p with entropy_coeff := v }) args.entropy_coeffs exemplar_id agent_id
    (explore_param args "gamma" (fun p => p.gamma)
      (fun p v => { p with gamma := v }) args.gammas exemplar_id agent_id
      (explore_param args "lr" (fun p => p.cur_lr)
        (fun p v => { p with lr_schedule := v }) args.lr exemplar_id agent_id
        (acc.1, g0)))

/-- `explore(agent, policy_reward_mean, args)`: perturb the hyperparameters of
every lower-quantile agent, copying from randomly chosen upper-quantile
exemplars. -/
def explore (args : Args) (policy_reward_mean : List (Nat × ℚ))
    (pols : Nat → PolicyState) (g : Rng) : (Nat → PolicyState) × Rng :=
  (lower_quantile args.quantile args.num_agents policy_reward_mean).foldl
    (explore_step args (upper_quantile args.quantile args.num_agents policy_reward_mean))
    (pols, g)

/-- One parameter block of the spec-prescribed variant: draw a FRESH exemplar
for this parameter, then perturb.  Modelled from the spec ("independent draw
per parameter, per agent"); used only to contrast with `explore_param`. -/
def explore_param_fresh_draw (args : Args) (pname : String) (sel : PolicyState → ℚ)
    (upd : PolicyState → ℚ → PolicyState) (dist : List ℚ) (upper : List Nat)
    (agent_id : Nat) (acc : (Nat → PolicyState) × Rng) : (Nat → PolicyState) × Rng :=
  if pname ∈ args.explore_params then
    let (exemplar_id, g0) := pyChoice upper 0 acc.2
    let (new_val, g) := explore_helper (sel (acc.1 exemplar_id)) dist args g0
    (Function.update acc.1 agent_id (upd (acc.1 agent_id) new_val), g)
  else acc

/-- Variant of `explore_step`.  Modelled from the spec: the specification
prescribes one fresh uniform exemplar draw per tunable parameter per agent
("independent draw per parameter, per agent"), rather than the single draw
per agent that the source performs.  Used only to contrast with
`explore_step`. -/
def explore_step_per_param_draw (args : Args) (upper : List Nat)
    (acc : (Nat → PolicyState) × Rng) (agent_id : Nat) : (Nat → PolicyState) × Rng :=
  explore_param_fresh_draw args "entropy_coeff" (fun p => p.entropy_coeff)
    (fun p v => { p with entropy_coeff := v }) args.entropy_coeffs upper agent_id
    (explore_param_fresh_draw args "gamma" (fun p => p.gamma)
      (fun p v => { p with gamma := v }) args.gammas upper agent_id
      (explore_param_fresh_draw args "lr" (fun p => p.cur_lr)
        (fun p v => { p with lr_schedule := v }) args.lr upper agent_id acc))

/-- The spec-prescribed per-parameter-draw variant of `explore` (see
`explore_step_per_param_draw`). -/
def explore_per_param_draw (args : Args) (policy_reward_mean : List (Nat × ℚ))
    (pols : Nat → PolicyState) (g : Rng) : (Nat → PolicyState) × Rng :=
  (lower_quantile args.quantile args.num_agents policy_reward_mean).foldl
    (explore_step_per_param_draw args
      (upper_quantile args.quantile args.num_agents policy_reward_mean))
    (pols, g)

/-- The external trainer handle: per-agent weight vectors and per-agent policy
hyperparameter state. -/
structure Trainer where
  weights : Nat → List ℝ
  policies : Nat → PolicyState

/-- The per-iteration `result` record (together with the single field of
`result["info"]` that `fed_learn` reads). -/
structure TrainResult where
  training_iteration : Nat
  policy_reward_mean : List (Nat × ℚ)
  timesteps_total : Int
  episode_reward_mean : NpF
  episode_reward_best : NpF
  federated : String
  num_steps_trained : Int

/-- `np.mean` of a non-empty vector. -/
def npMeanQ (l : List ℚ) : ℚ := l.sum / (l.length : ℚ)

/-- `np.max` of a non-empty vector. -/
def npMaxQ (l : List ℚ) : ℚ :=
  match l with
  | [] => 0
  | x :: xs => xs.foldl max x

/-- `softmax_reward_weighted_update(agent, result, args)`: on a non-empty
reward signal, aggregate all weights by the softmax rule, broadcast the
result, and run `explore`; on an empty signal do nothing.  `none` models a
numpy shape error inside the aggregation. -/
noncomputable def softmax_reward_weighted_update (args : Args) (tr : Trainer)
    (result : TrainResult) (g : Rng) : Option (Trainer × Rng) :=
  let all_weights := (List.range args.num_agents).map (fun i => (i, tr.weights i))
  let policy_reward_mean := result.policy_reward_mean
  if policy_reward_mean.isEmpty then some (tr, g)
  else
    match compute_softmax_weighted_avg all_weights
        (policy_reward_mean.map (fun p => (p.1, (p.2 : ℝ)))) (args.temp : ℝ) args.num_agents with
    | none => none
    | some new_weights =>
      let tr1 : Trainer := { tr with weights := synchronize args.num_agents new_weights tr.weights }
      let (pols, g1) := explore args policy_reward_mean tr1.policies g
      some ({ tr1 with policies := pols }, g1)

/-- The callback `fed_learn(metrics)` returned by `fed_pbt_train(args)`:
rewrite `timesteps_total`, the derived reward metrics and the `federated`
label, then dispatch on the iteration number (uniform initialization on
iteration 1, softmax federation when `training_iteration % interval == 0`,
otherwise nothing).  `none` models an uncaught numpy error. -/
noncomputable def fed_learn (args : Args) (tr : Trainer) (result : TrainResult) (g : Rng) :
    Option (Trainer × TrainResult × Rng) :=
  let prm := result.policy_reward_mean
  let result1 : TrainResult := { result with
    timesteps_total := result.num_steps_trained
    episode_reward_mean := if prm.isEmpty then NpF.nonfin else NpF.fin (npMeanQ (prm.map Prod.snd))
    episode_reward_best := if prm.isEmpty then NpF.nonfin else NpF.fin (npMaxQ (prm.map Prod.snd))
    federated := "No federation" }
  if result1.training_iteration = 1 then
    some ({ tr with weights := uniform_initialize args.num_agents tr.weights }, result1, g)
  else if result1.training_iteration % args.interval = 0 then
    let result2 : TrainResult := { result1 with
      federated := "Federation with " ++ toString args.temp }
    match softmax_reward_weighted_update args tr result2 g with
    | none => none
    | some (tr1, g1) => some (tr1, result2, g1)
  else
    some (tr, result1, g)

/-! ### Concrete inputs used by counterexamples and witnesses -/

/-- Five agents with ascending rewards. -/
def rw5 : List (Nat × ℚ) := [(0, 1), (1, 2), (2, 3), (3, 4), (4, 5)]

/-- Four agents with ascending rewards. -/
def rw4 : List (Nat × ℚ) := [(0, 1), (1, 2), (2, 3), (3, 4)]

/-- Three agents with ascending rewards. -/
def rw3 : List (Nat × ℚ) := [(0, 10), (1, 20), (2, 30)]

/-- A weight collection with keys `{0, 1}`. -/
def wq01 : List (Nat × List ℚ) := [(0, [1]), (1, [2])]

/-- A reward signal with keys `{5, 7}`, mismatching `wq01`. -/
def aq57 : List (Nat × ℚ) := [(5, 1), (7, 2)]

/-- A real-valued weight collection with keys `{0, 1}`. -/
def wr01 : List (Nat × List ℝ) := [(0, [1]), (1, [2])]

/-- A real-valued reward signal with keys `{5, 7}`, mismatching `wr01`. -/
def ar57 : List (Nat × ℝ) := [(5, 1), (7, 2)]

/-- A weight collection for three agents. -/
def wq3 : List (Nat × List ℚ) := [(0, [1]), (1, [2]), (2, [3])]

/-- The all-zero reward signal of end-to-end scenario C. -/
def aq0 : List (Nat × ℚ) := [(0, 0), (1, 0), (2, 0)]

/-- Configuration for the `explore` scenario: four agents, half/half
quantiles, all three tunable parameters enabled, resampling disabled. -/
def eArgs : Args :=
  { num_agents := 4, interval := 2, temp := 1, quantile := 1 / 2,
    explore_params := ["lr", "gamma", "entropy_coeff"],
    lr := [1, 2, 3, 4], gammas := [1, 2, 3, 4], entropy_coeffs := [1, 2, 3, 4],
    resample_probability := 0 }

/-- Policies for the `explore` scenario: the two upper-quantile agents 2 and 3
carry distinct hyperparameter values, so results reveal which exemplar was
drawn. -/
def ePols : Nat → PolicyState := fun i =>
  if i = 2 then ⟨2, 2, 2, 2⟩ else if i = 3 then ⟨4, 4, 4, 4⟩ else ⟨3, 3, 3, 3⟩

/-- Random oracle for the `explore` scenario: every `random.random()` returns
`1` (so the neighbour perturbation always moves to the previous value), and
successive `random.choice` calls would pick indices `0, 1, 1, 1, 1, 1`. -/
def eRng : Rng := ⟨List.replicate 12 1, [0, 1, 1, 1, 1, 1]⟩

/-- Random oracle for the population-based-training scenario: both choice
draws pick index `1` of the upper quantile. -/
def pRng : Rng := ⟨[], [1, 1]⟩

/-- Configuration for the `fed_learn` scenarios: two agents, interval 2. -/
def fArgs : Args :=
  { num_agents := 2, interval := 2, temp := 1, quantile := 1 / 4,
    explore_params := [], lr := [], gammas := [], entropy_coeffs := [],
    resample_probability := 0 }

/-- A trainer with empty weight vectors. -/
def fTr : Trainer := { weights := fun _ => [], policies := fun _ => ⟨0, 0, 0, 0⟩ }

/-- A would-be federation iteration (iteration 4, interval 2) whose reward
signal is empty. -/
def fResEmpty : TrainResult :=
  { training_iteration := 4, policy_reward_mean := [], timesteps_total := 5,
    episode_reward_mean := NpF.fin 0, episode_reward_best := NpF.fin 0,
    federated := "x", num_steps_trained := 7 }

/-- A pass-through iteration (iteration 3, interval 2) with one reported
reward and `timesteps_total = 5` while `info["num_steps_trained"] = 7`. -/
def fResPass : TrainResult :=
  { training_iteration := 3, policy_reward_mean := [(0, 1)], timesteps_total := 5,
    episode_reward_mean := NpF.fin 0, episode_reward_best := NpF.fin 0,
    federated := "x", num_steps_trained := 7 }

/-- The record `fed_learn` produces from `fResPass`. -/
def fResPassOut : TrainResult :=
  { fResPass with
    timesteps_total := 7
    episode_reward_mean := NpF.fin (npMeanQ [1])
    episode_reward_best := NpF.fin (npMaxQ [1])
    federated := "No federation" }

/-- An empty random oracle. -/
def gRng : Rng := ⟨[], []⟩

/-- A real-valued weight collection for two agents. -/
def wr2 : List (Nat × List ℝ) := [(0, [1]), (1, [2])]

/-- A real-valued reward signal for two agents. -/
def ar2 : List (Nat × ℝ) := [(0, 3), (1, 4)]

/-! ### Helper lemmas -/

unseal Rat.add Rat.mul Rat.inv Rat.sub

theorem pbt_sorted_of_sorted {rewards : List (Nat × ℚ)}
    (h : rewards.Pairwise fun a b => a.2 ≤ b.2) : pbt_sorted rewards = rewards :=
  List.mergeSort_of_sorted (h.imp fun hab => decide_eq_true hab)

theorem lower_quantile_eq (q : ℚ) (n : Nat) (c : ℤ) (h : ⌈q * (n : ℚ)⌉ = c)
    (rewards : List (Nat × ℚ)) :
    lower_quantile q n rewards = (pySliceTo (pbt_sorted rewards) c).map Prod.fst := by
  rw [lower_quantile, h]

theorem upper_quantile_eq (q : ℚ) (n : Nat) (k : ℤ) (h : ⌊q * (-(n : ℚ))⌋ = k)
    (rewards : List (Nat × ℚ)) :
    upper_quantile q n rewards = (pySliceFrom (pbt_sorted rewards) k).map Prod.fst := by
  rw [upper_quantile, h]

theorem lower_rw4 : lower_quantile (1 / 2) 4 rw4 = [0, 1] := by
  rw [lower_quantile_eq (1 / 2) 4 2 (by norm_num), pbt_sorted_of_sorted (by decide)]
  decide

theorem upper_rw4 : upper_quantile (1 / 2) 4 rw4 = [2, 3] := by
  rw [upper_quantile_eq (1 / 2) 4 (-2) (by norm_num), pbt_sorted_of_sorted (by decide)]
  decide

theorem lower_rw3 : lower_quantile (1 / 2) 3 rw3 = [0, 1] := by
  rw [lower_quantile_eq (1 / 2) 3 2 (by rw [Int.ceil_eq_iff]; norm_num),
    pbt_sorted_of_sorted (by decide)]
  decide

theorem upper_rw3 : upper_quantile (1 / 2) 3 rw3 = [1, 2] := by
  rw [upper_quantile_eq (1 / 2) 3 (-2) (by rw [Int.floor_eq_iff]; norm_num),
    pbt_sorted_of_sorted (by decide)]
  decide

theorem upper_rw5 : upper_quantile (1 / 4) 5 rw5 = [3, 4] := by
  rw [upper_quantile_eq (1 / 4) 5 (-2) (by rw [Int.floor_eq_iff]; norm_num),
    pbt_sorted_of_sorted (by decide)]
  decide

/-! ### Claim C10 -/

/-- Claim C10: the iteration-1 uniform-initialization step sets every agent's
parameter set to agent 0's, and it is idempotent. -/
theorem uniform_initialize_idempotent {α : Type} (num_agents : Nat) (W : Nat → α) :
    uniform_initialize num_agents ( uniform_initialize num_agents W) =
      uniform_initialize num_agents W
    ∧ ∀ i, i < num_agents → uniform_initialize num_agents W i = W 0 := by
  have h0 : uniform_initialize num_agents W 0 = W 0 := by
    simp [ uniform_initialize, synchronize]
  constructor
  · funext i
    by_cases h : i < num_agents <;>
      simp [ uniform_initialize, synchronize, h]
  · intro i hi
    simp [ uniform_initialize, synchronize, hi]

/-- Witness for `uniform_initialize_idempotent` at `num_agents = 2`,
`W = id`. -/
theorem uniform_initialize_idempotent_witness :
    uniform_initialize 2 ( uniform_initialize 2 (fun i : Nat => i)) =
      uniform_initialize 2 (fun i : Nat => i)
    ∧ uniform_initialize 2 (fun i : Nat => i) 1 = 0 :=
  ⟨(uniform_initialize_idempotent 2 (fun i : Nat => i)).1,
    (uniform_initialize_idempotent 2 (fun i : Nat => i)).2 1 (by decide)⟩

/-! ### Counterexamples (concrete evaluations of the embedded code) -/

/-- Counterexample to claim C2: for `q = 1/4` and `N = 5` (ascending rewards
`rw5`), the upper-quantile slice holds the last `⌈q·N⌉ = 2` agents, so its
size is not `⌊q·N⌋ = 1` as claimed. -/
theorem upper_quantile_size_cex :
    ⌊(1 / 4 : ℚ) * ((5 : ℕ) : ℚ)⌋ = 1
    ∧ upper_quantile (1 / 4) 5 rw5 = [3, 4]
    ∧ (upper_quantile (1 / 4) 5 rw5).length ≠ 1 := by
  refine ⟨by norm_num, upper_rw5, ?_⟩
  rw [upper_rw5]; decide

/-- Counterexample to claim C3: for `N = 3 ≥ 2` and `q = 1/2 ≤ 1/2`
(ascending rewards `rw3`), agent 1 lies in both the lower and the upper
quantile — the computed ranges overlap and the code proceeds (no
`InvalidQuantileConfiguration` exists in the source). -/
theorem quantile_overlap_cex :
    (2 : ℕ) ≤ 3 ∧ (1 / 2 : ℚ) ≤ 1 / 2
    ∧ 1 ∈ lower_quantile (1 / 2) 3 rw3 ∧ 1 ∈ upper_quantile (1 / 2) 3 rw3 :=
  ⟨by decide, le_refl _, by rw [lower_rw3]; decide, by rw [upper_rw3]; decide⟩

/-- Counterexample to claim C4: a weight collection with keys `{0, 1}` and a
reward signal with keys `{5, 7}` — the key sets differ, yet the
reward-proportional aggregation returns a parameter set (values are paired
positionally; no `MismatchedPopulation` exists in the source). -/
theorem aggregate_mismatched_keys_cex :
    wq01.map Prod.fst ≠ aq57.map Prod.fst
    ∧ (compute_reward_weighted_avg wq01 aq57 2).isSome = true :=
  ⟨by decide, by decide⟩

/-- Counterexample to claim C5 (end-to-end scenario C): with rewards
`{0: 0, 1: 0, 2: 0}` the reward-proportional aggregation does not raise — it
returns a parameter set, whose single entry is the non-finite float produced
by the `0/0` divisions. -/
theorem reward_avg_zero_sum_cex :
    compute_reward_weighted_avg wq3 aq0 3 = some [NpF.nonfin] := by decide

/-- Counterexample to claim C9: with `N = 3`, `q = 1/2`, ascending rewards
`rw3` and a choice oracle picking index 1 twice, agent 1 belongs to the upper
quantile yet its stored weights change (it is also in the lower quantile and
gets agent 2's weights), refuting "no high agent's own stored state is
modified". -/
theorem pbt_high_agent_modified_cex :
    1 ∈ upper_quantile (1 / 2) 3 rw3
    ∧ (population_based_train (1 / 2) 3 (fun a : Nat => a) rw3 pRng).1 1 ≠
        (fun a : Nat => a) 1 := by
  constructor
  · rw [upper_rw3]; decide
  · simp only [population_based_train]
    rw [lower_rw3, upper_rw3]
    decide

/-- Counterexample to claim C6: in the `eArgs`/`ePols`/`eRng` scenario the
lower quantile is `[0, 1]` and the upper quantile `[2, 3]`; the choice oracle
is `[0, 1, 1, 1, 1, 1]`.  The code draws ONE exemplar per low agent: agent 0's
learning rate, gamma and entropy coefficient are all perturbed from the single
exemplar agent 2 (giving value 1 each), and only two choice-stream entries are
consumed in total (one per agent, not one per agent per parameter).  The
spec-prescribed per-parameter-draw variant gives a different result (gamma and
entropy from agent 3, value 3) and consumes all six entries. -/
theorem explore_single_draw_cex :
    (explore eArgs rw4 ePols eRng).1 0 = ⟨3, 1, 1, 1⟩
    ∧ (explore eArgs rw4 ePols eRng).2.choices = [1, 1, 1, 1]
    ∧ (explore_per_param_draw eArgs rw4 ePols eRng).1 0 = ⟨3, 1, 3, 3⟩
    ∧ (explore_per_param_draw eArgs rw4 ePols eRng).2.choices = [] := by
  simp only [explore, explore_per_param_draw, eArgs]
  rw [lower_rw4, upper_rw4]
  refine ⟨?_, ?_, ?_, ?_⟩ <;> decide

/-! ### Structure of the quantile selection (claims C2, C3) -/

theorem pbt_sorted_perm (rewards : List (Nat × ℚ)) : (pbt_sorted rewards).Perm rewards :=
  List.mergeSort_perm rewards _

theorem pbt_sorted_pairwise (rewards : List (Nat × ℚ)) :
    (pbt_sorted rewards).Pairwise (fun a b => a.2 ≤ b.2) := by
  have h := @List.sorted_mergeSort (Nat × ℚ) (fun a b => decide (a.2 ≤ b.2))
    (fun a b c hab hbc => by
      simp only [decide_eq_true_eq] at hab hbc ⊢
      exact le_trans hab hbc)
    (fun a b => by
      simp only [Bool.or_eq_true, decide_eq_true_eq]
      exact le_total a.2 b.2)
    rewards
  exact h.imp (fun h' => by simpa using h')

theorem pbt_sorted_length (rewards : List (Nat × ℚ)) :
    (pbt_sorted rewards).length = rewards.length :=
  List.length_mergeSort rewards

theorem floor_neg_mul (q : ℚ) (n : Nat) : ⌊q * (-(n : ℚ))⌋ = -⌈q * (n : ℚ)⌉ := by
  rw [mul_neg, Int.floor_neg]

/-- Claim C2 (amended): on a population of `N = rewards.length` agents with
`0 < q ≤ 1`, the selection sorts agents by reward ascending (a sorted
permutation of the input); `low` is the first `⌈q·N⌉` agents of the sorted
order and `high` is the last `⌈q·N⌉` agents — both sets have size `⌈q·N⌉`
(the code slices with `-⌈q·N⌉`, not `⌊q·N⌋`, so `|high| = ⌈q·N⌉`,
not `⌊q·N⌋`). -/
theorem quantile_selection_spec (q : ℚ) (n : Nat) (rewards : List (Nat × ℚ))
    (hlen : rewards.length = n) (hn : 0 < n) (h0 : 0 < q) (h1 : q ≤ 1) :
    (pbt_sorted rewards).Perm rewards
    ∧ (pbt_sorted rewards).Pairwise (fun a b => a.2 ≤ b.2)
    ∧ lower_quantile q n rewards =
        ((pbt_sorted rewards).map Prod.fst).take (⌈q * (n : ℚ)⌉).toNat
    ∧ upper_quantile q n rewards =
        ((pbt_sorted rewards).map Prod.fst).drop (n - (⌈q * (n : ℚ)⌉).toNat)
    ∧ (lower_quantile q n rewards).length = (⌈q * (n : ℚ)⌉).toNat
    ∧ (upper_quantile q n rewards).length = (⌈q * (n : ℚ)⌉).toNat := by
  have slen : (pbt_sorted rewards).length = n := by rw [pbt_sorted_length, hlen]
  have hc0 : 0 < ⌈q * (n : ℚ)⌉ := by
    apply Int.ceil_pos.mpr
    have : (0 : ℚ) < (n : ℚ) := by exact_mod_cast hn
    exact mul_pos h0 this
  have hcn : ⌈q * (n : ℚ)⌉ ≤ (n : ℤ) := by
    have hq : q * (n : ℚ) ≤ (n : ℚ) := by
      have : (0 : ℚ) ≤ (n : ℚ) := by positivity
      nlinarith
    calc ⌈q * (n : ℚ)⌉ ≤ ⌈(n : ℚ)⌉ := Int.ceil_le_ceil hq
      _ = (n : ℤ) := Int.ceil_natCast n
  have hlow : lower_quantile q n rewards =
      ((pbt_sorted rewards).map Prod.fst).take (⌈q * (n : ℚ)⌉).toNat := by
    rw [lower_quantile, pySliceTo, if_neg (by omega), List.map_take]
  have hup : upper_quantile q n rewards =
      ((pbt_sorted rewards).map Prod.fst).drop (n - (⌈q * (n : ℚ)⌉).toNat) := by
    rw [upper_quantile, floor_neg_mul, pySliceFrom, if_pos (by omega), List.map_drop, slen]
    congr 1
    omega
  refine ⟨pbt_sorted_perm rewards, pbt_sorted_pairwise rewards, hlow, hup, ?_, ?_⟩
  · rw [hlow, List.length_take, List.length_map, slen]
    omega
  · rw [hup, List.length_drop, List.length_map, slen]
    omega

/-- Witness for `quantile_selection_spec` at `q = 1/4`, `N = 4`. -/
theorem quantile_selection_spec_witness :
    (pbt_sorted rw4).Perm rw4
    ∧ (pbt_sorted rw4).Pairwise (fun a b => a.2 ≤ b.2)
    ∧ lower_quantile (1 / 4) 4 rw4 =
        ((pbt_sorted rw4).map Prod.fst).take (⌈(1 / 4 : ℚ) * ((4 : ℕ) : ℚ)⌉).toNat
    ∧ upper_quantile (1 / 4) 4 rw4 =
        ((pbt_sorted rw4).map Prod.fst).drop (4 - (⌈(1 / 4 : ℚ) * ((4 : ℕ) : ℚ)⌉).toNat)
    ∧ (lower_quantile (1 / 4) 4 rw4).length = (⌈(1 / 4 : ℚ) * ((4 : ℕ) : ℚ)⌉).toNat
    ∧ (upper_quantile (1 / 4) 4 rw4).length = (⌈(1 / 4 : ℚ) * ((4 : ℕ) : ℚ)⌉).toNat :=
  quantile_selection_spec (1 / 4) 4 rw4 rfl (by decide) (by norm_num) (by norm_num)

/-- Claim C3 (amended): the lower and upper quantiles are disjoint whenever
`2·⌈q·N⌉ ≤ N` (with distinct agent ids).  This covers `q ≤ 1/2` with even
`N`, but not e.g. `q = 1/2` with odd `N` (see `quantile_overlap_cex`);
on overlap the code simply proceeds — no `InvalidQuantileConfiguration`
exists in the source. -/
theorem quantile_disjoint_of_small_ceil (q : ℚ) (n : Nat) (rewards : List (Nat × ℚ))
    (hkeys : (rewards.map Prod.fst).Nodup) (hlen : rewards.length = n)
    (hq : 0 ≤ q) (h2 : 2 * ⌈q * (n : ℚ)⌉ ≤ (n : ℤ)) :
    (lower_quantile q n rewards).Disjoint (upper_quantile q n rewards) := by
  have slen : (pbt_sorted rewards).length = n := by rw [pbt_sorted_length, hlen]
  have hc0 : 0 ≤ ⌈q * (n : ℚ)⌉ := by
    apply Int.ceil_nonneg
    positivity
  have hnodup : ((pbt_sorted rewards).map Prod.fst).Nodup := by
    have hperm : (pbt_sorted rewards).map Prod.fst |>.Perm (rewards.map Prod.fst) :=
      (pbt_sorted_perm rewards).map Prod.fst
    exact hperm.nodup_iff.mpr hkeys
  rcases lt_or_eq_of_le hc0 with hpos | hzero
  · have hlow : lower_quantile q n rewards =
        ((pbt_sorted rewards).map Prod.fst).take (⌈q * (n : ℚ)⌉).toNat := by
      rw [lower_quantile, pySliceTo, if_neg (by omega), List.map_take]
    have hup : upper_quantile q n rewards =
        ((pbt_sorted rewards).map Prod.fst).drop (n - (⌈q * (n : ℚ)⌉).toNat) := by
      rw [upper_quantile, floor_neg_mul, pySliceFrom, if_pos (by omega), List.map_drop, slen]
      congr 1
      omega
    rw [hlow, hup]
    exact List.disjoint_take_drop hnodup (by omega)
  · have hlow : lower_quantile q n rewards = [] := by
      rw [lower_quantile, pySliceTo, if_neg (by omega), ← hzero]
      simp
    rw [hlow]
    exact fun a ha => absurd ha (List.not_mem_nil a)

/-- Witness for `quantile_disjoint_of_small_ceil` at `q = 1/4`, `N = 4`. -/
theorem quantile_disjoint_of_small_ceil_witness :
    (lower_quantile (1 / 4) 4 rw4).Disjoint (upper_quantile (1 / 4) 4 rw4) :=
  quantile_disjoint_of_small_ceil (1 / 4) 4 rw4 (by decide) rfl (by norm_num)
    (by norm_num)

/-! ### Aggregation (claims C4, C5) -/

/-- Claim C4 (amended): neither aggregation routine compares key sets; each
returns a parameter set for ANY pair of collections of the right sizes
(values are paired positionally after sorting-free extraction of
`dict.values()`), so mismatched key sets are silently accepted — no
`MismatchedPopulation` failure exists. -/
theorem aggregate_no_population_check (n : Nat) (wq : List (Nat × List ℚ))
    (aq : List (Nat × ℚ)) (wr : List (Nat × List ℝ)) (ar : List (Nat × ℝ)) (t : ℝ)
    (haq : aq.length = n) (hwq : wq.length = n) (har : ar.length = n)
    (hwr : wr.length = n) (hn : 0 < n) :
    (compute_reward_weighted_avg wq aq n).isSome = true
    ∧ (compute_softmax_weighted_avg wr ar t n).isSome = true := by
  constructor
  · simp [compute_reward_weighted_avg, haq, hwq]
  · simp [compute_softmax_weighted_avg, har, hwr, hn]

/-- Witness for `aggregate_no_population_check` with key sets `{0,1}` versus
`{5,7}`. -/
theorem aggregate_no_population_check_witness :
    (compute_reward_weighted_avg wq01 aq57 2).isSome = true
    ∧ (compute_softmax_weighted_avg wr01 ar57 1 2).isSome = true :=
  aggregate_no_population_check 2 wq01 aq57 wr01 ar57 1 rfl rfl rfl rfl (by decide)

theorem NpF.nonfin_add (y : NpF) : NpF.nonfin + y = NpF.nonfin := by
  cases y <;> rfl

theorem NpF.nonfin_mul (y : NpF) : NpF.nonfin * y = NpF.nonfin := by
  cases y <;> rfl

theorem zipWith_add_nonfin : ∀ (u v : List NpF), (∀ a ∈ u, a = NpF.nonfin) →
    ∀ x ∈ List.zipWith (· + ·) u v, x = NpF.nonfin := by
  intro u
  induction u with
  | nil => intro v _ x hx; simp at hx
  | cons a u ih =>
    intro v hu x hx
    cases v with
    | nil => simp at hx
    | cons b v =>
      simp only [List.zipWith_cons_cons, List.mem_cons] at hx
      rcases hx with rfl | hx
      · rw [hu a (List.mem_cons_self a u)]
        exact NpF.nonfin_add b
      · exact ih v (fun y hy => hu y (List.mem_cons_of_mem a hy)) x hx

theorem foldl_vecAdd_nonfin : ∀ (rs : List (List NpF)) (r : List NpF),
    (∀ x ∈ r, x = NpF.nonfin) →
    ∀ x ∈ rs.foldl (fun u v => List.zipWith (· + ·) u v) r, x = NpF.nonfin := by
  intro rs
  induction rs with
  | nil => exact fun r hr x hx => hr x hx
  | cons s rs ih =>
    intro r hr x hx
    exact ih _ (zipWith_add_nonfin r s hr) x hx

theorem sumRows_nonfin (rows : List (List NpF))
    (h : ∀ r ∈ rows, ∀ x ∈ r, x = NpF.nonfin) :
    ∀ x ∈ sumRows rows, x = NpF.nonfin := by
  cases rows with
  | nil => intro x hx; simp [sumRows] at hx
  | cons r rs =>
    intro x hx
    exact foldl_vecAdd_nonfin rs r (h r (List.mem_cons_self r rs)) x hx

theorem zipWith_rows_nonfin : ∀ (ss : List NpF) (ws : List (List ℚ)),
    (∀ s ∈ ss, s = NpF.nonfin) →
    ∀ r ∈ List.zipWith (fun s w => w.map (fun x => s * NpF.fin x)) ss ws,
      ∀ x ∈ r, x = NpF.nonfin := by
  intro ss
  induction ss with
  | nil => intro ws _ r hr; simp at hr
  | cons s ss ih =>
    intro ws hs r hr
    cases ws with
    | nil => simp at hr
    | cons w ws =>
      simp only [List.zipWith_cons_cons, List.mem_cons] at hr
      rcases hr with rfl | hr
      · intro x hx
        rcases List.mem_map.mp hx with ⟨y, _, rfl⟩
        rw [hs s (List.mem_cons_self s ss)]
        exact NpF.nonfin_mul (NpF.fin y)
      · exact ih ws (fun y hy => hs y (List.mem_cons_of_mem s hy)) r hr

/-- Claim C5 (amended): a reward-proportional aggregation whose rewards sum
to zero does NOT raise; it returns a parameter set every entry of which is
the non-finite float produced by dividing by the zero sum
(`DegenerateRewardSignal` does not exist in the source). -/
theorem reward_avg_zero_sum_nan (weights : List (Nat × List ℚ)) (alphas : List (Nat × ℚ))
    (n : Nat) (ha : alphas.length = n) (hw : weights.length = n)
    (hs : (alphas.map Prod.snd).sum = 0) :
    ∃ l, compute_reward_weighted_avg weights alphas n = some l
      ∧ ∀ x ∈ l, x = NpF.nonfin := by
  rw [compute_reward_weighted_avg]
  simp only [ha, hw, and_self, if_true]
  refine ⟨_, rfl, ?_⟩
  apply sumRows_nonfin
  apply zipWith_rows_nonfin
  intro s hs'
  rcases List.mem_map.mp hs' with ⟨a, _, rfl⟩
  rw [hs, npDiv, if_pos rfl]

/-- Witness for `reward_avg_zero_sum_nan` at scenario C's all-zero rewards. -/
theorem reward_avg_zero_sum_nan_witness :
    ∃ l, compute_reward_weighted_avg wq3 aq0 3 = some l ∧ ∀ x ∈ l, x = NpF.nonfin :=
  reward_avg_zero_sum_nan wq3 aq0 3 rfl rfl (by decide)

/-! ### Population-based training (claim C9) -/

theorem pbt_step_fst_ne {α : Type} (W : Nat → α) (lower upper : List Nat)
    (acc : (Nat → α) × Rng) (x a : Nat) (hax : a ≠ x) :
    (pbt_step W lower upper acc x).1 a = acc.1 a := by
  rw [pbt_step]
  split
  · simp [pyChoice, Function.update_noteq hax]
  · simp [Function.update_noteq hax]

theorem pbt_step_fst_self {α : Type} (W : Nat → α) (lower upper : List Nat)
    (acc : (Nat → α) × Rng) (x : Nat) (hx : x ∉ lower) :
    (pbt_step W lower upper acc x).1 x = W x := by
  rw [pbt_step, if_neg hx]
  simp

theorem pbt_step_fst_mem {α : Type} (W : Nat → α) (lower upper : List Nat)
    (acc : (Nat → α) × Rng) (x : Nat) (hx : x ∈ lower) (hu : upper ≠ []) :
    ∃ b ∈ upper, (pbt_step W lower upper acc x).1 x = W b := by
  rw [pbt_step, if_pos hx]
  have hlen : acc.2.choices.headD 0 % upper.length < upper.length :=
    Nat.mod_lt _ (List.length_pos.mpr hu)
  refine ⟨upper.getD (acc.2.choices.headD 0 % upper.length) 0, ?_, ?_⟩
  · rw [List.getD_eq_getElem?_getD, List.getElem?_eq_getElem hlen]
    exact List.getElem_mem hlen
  · simp [pyChoice, Function.update_same]

theorem pbt_fold_fst_not_mem {α : Type} (W : Nat → α) (lower upper : List Nat) :
    ∀ (L : List Nat) (acc : (Nat → α) × Rng) (a : Nat), a ∉ L →
      (L.foldl (pbt_step W lower upper) acc).1 a = acc.1 a := by
  intro L
  induction L with
  | nil => intro acc a _; rfl
  | cons x xs ih =>
    intro acc a ha
    have hax : a ≠ x := fun h => ha (h ▸ List.mem_cons_self x xs)
    have haxs : a ∉ xs := fun h => ha (List.mem_cons_of_mem x h)
    rw [List.foldl_cons, ih _ a haxs, pbt_step_fst_ne W lower upper acc x a hax]

theorem pbt_fold_fst_not_lower {α : Type} (W : Nat → α) (lower upper : List Nat) :
    ∀ (L : List Nat) (acc : (Nat → α) × Rng) (a : Nat), a ∈ L → a ∉ lower →
      (L.foldl (pbt_step W lower upper) acc).1 a = W a := by
  intro L
  induction L with
  | nil => intro acc a ha _; exact absurd ha (List.not_mem_nil a)
  | cons x xs ih =>
    intro acc a ha hal
    rw [List.foldl_cons]
    by_cases hxs : a ∈ xs
    · exact ih _ a hxs hal
    · have hax : a = x := by
        rcases List.mem_cons.mp ha with h | h
        · exact h
        · exact absurd h hxs
      subst hax
      rw [pbt_fold_fst_not_mem W lower upper xs _ a hxs,
        pbt_step_fst_self W lower upper acc a hal]

theorem pbt_fold_fst_lower {α : Type} (W : Nat → α) (lower upper : List Nat)
    (hu : upper ≠ []) :
    ∀ (L : List Nat) (acc : (Nat → α) × Rng) (a : Nat), a ∈ L → a ∈ lower →
      ∃ b ∈ upper, (L.foldl (pbt_step W lower upper) acc).1 a = W b := by
  intro L
  induction L with
  | nil => intro acc a ha _; exact absurd ha (List.not_mem_nil a)
  | cons x xs ih =>
    intro acc a ha hal
    rw [List.foldl_cons]
    by_cases hxs : a ∈ xs
    · exact ih _ a hxs hal
    · have hax : a = x := by
        rcases List.mem_cons.mp ha with h | h
        · exact h
        · exact absurd h hxs
      subst hax
      rcases pbt_step_fst_mem W lower upper acc a hal hu with ⟨b, hb, hval⟩
      exact ⟨b, hb, by rw [pbt_fold_fst_not_mem W lower upper xs _ a hxs, hval]⟩

theorem lower_quantile_nil (q : ℚ) (n : Nat) : lower_quantile q n [] = [] := by
  rw [lower_quantile, pbt_sorted, List.mergeSort_nil, pySliceTo]
  split <;> simp

theorem upper_ne_nil_of_lower_ne_nil (q : ℚ) (n : Nat) (rewards : List (Nat × ℚ))
    (h : lower_quantile q n rewards ≠ []) : upper_quantile q n rewards ≠ [] := by
  have hlow : 0 < (lower_quantile q n rewards).length := List.length_pos.mpr h
  rw [lower_quantile, List.length_map, pySliceTo] at hlow
  apply List.length_pos.mp
  rw [upper_quantile, floor_neg_mul, List.length_map, pySliceFrom]
  split at hlow <;> split <;>
    simp only [List.length_take, List.length_drop] at hlow ⊢ <;> omega

/-- Claim C9 (amended): after `population_based_train`, for every oracle of
random choices, each lower-quantile agent (within the population) holds the
input parameter set of SOME upper-quantile agent, and every agent not in the
lower quantile is unchanged.  An upper-quantile agent's own state, however,
is preserved only if it is not also in the lower quantile — when the two
quantiles overlap (see `pbt_high_agent_modified_cex`) a high agent can be
overwritten. -/
theorem pbt_replacement_spec {α : Type} (q : ℚ) (num_agents : Nat) (W : Nat → α)
    (rewards : List (Nat × ℚ)) (g : Rng) :
    (∀ a, a ∉ lower_quantile q num_agents rewards →
      (population_based_train q num_agents W rewards g).1 a = W a)
    ∧ (∀ a, a ∈ lower_quantile q num_agents rewards → a < num_agents →
      ∃ b ∈ upper_quantile q num_agents rewards,
        (population_based_train q num_agents W rewards g).1 a = W b) := by
  rw [population_based_train]
  split
  · constructor
    · intro a _
      rfl
    · intro a ha hlt
      clear hlt
      have hnil : rewards = [] := by
        rename_i hemp
        exact List.isEmpty_iff.mp hemp
      rw [hnil, lower_quantile_nil] at ha
      exact absurd ha (List.not_mem_nil a)
  · constructor
    · intro a ha
      by_cases hrange : a ∈ List.range num_agents
      · exact pbt_fold_fst_not_lower W _ _ (List.range num_agents) (W, g) a hrange ha
      · exact pbt_fold_fst_not_mem W _ _ (List.range num_agents) (W, g) a hrange
    · intro a ha hn
      have hu : upper_quantile q num_agents rewards ≠ [] :=
        upper_ne_nil_of_lower_ne_nil q num_agents rewards (List.ne_nil_of_mem ha)
      exact pbt_fold_fst_lower W _ _ hu (List.range num_agents) (W, g) a
        (List.mem_range.mpr hn) ha

/-- Witness for `pbt_replacement_spec` in the `rw3` scenario: agent 5 (not in
the lower quantile) is unchanged, and agent 0 (in the lower quantile) receives
some upper-quantile agent's weights. -/
theorem pbt_replacement_spec_witness :
    (population_based_train (1 / 2) 3 (fun a : Nat => a) rw3 pRng).1 5 = 5
    ∧ ∃ b ∈ upper_quantile (1 / 2) 3 rw3,
        (population_based_train (1 / 2) 3 (fun a : Nat => a) rw3 pRng).1 0 = b :=
  ⟨(pbt_replacement_spec (1 / 2) 3 (fun a : Nat => a) rw3 pRng).1 5
      (by rw [lower_rw3]; decide),
    (pbt_replacement_spec (1 / 2) 3 (fun a : Nat => a) rw3 pRng).2 0
      (by rw [lower_rw3]; decide) (by decide)⟩

/-! ### Softmax shift invariance (claim C8) -/

theorem foldl_max_map_add (xs : List ℝ) (a c : ℝ) :
    (xs.map (fun x => x + c)).foldl max (a + c) = xs.foldl max a + c := by
  induction xs generalizing a with
  | nil => rfl
  | cons x xs ih =>
    simp only [List.map_cons, List.foldl_cons]
    rw [max_add_add_right, ih]

theorem npMaxR_map_add (xs : List ℝ) (c : ℝ) (h : xs ≠ []) :
    npMaxR (xs.map (fun x => x + c)) = npMaxR xs + c := by
  cases xs with
  | nil => exact absurd rfl h
  | cons x xs =>
    simp only [npMaxR, List.map_cons]
    exact foldl_max_map_add xs x c

theorem softmax_vals_map_add (temp c : ℝ) (xs : List ℝ) (h : xs ≠ []) :
    softmax_vals temp (xs.map (fun x => x + c)) = softmax_vals temp xs := by
  rw [softmax_vals, softmax_vals, npMaxR_map_add xs c h]
  have hfun : ((fun x => Real.exp (temp * (x - (npMaxR xs + c)))) ∘ fun x => x + c)
      = fun x => Real.exp (temp * (x - npMaxR xs)) := by
    funext x
    simp only [Function.comp_apply]
    ring_nf
  have he : (xs.map (fun x => x + c)).map (fun x => Real.exp (temp * (x - (npMaxR xs + c))))
      = xs.map fun x => Real.exp (temp * (x - npMaxR xs)) := by
    rw [List.map_map, hfun]
  rw [he]

/-- Claim C8: softmax-tempered aggregation is invariant under shifting every
reward by the same constant (the `np.max` subtraction in the embedded
`softmax` cancels the shift exactly, over real arithmetic). -/
theorem softmax_shift_invariance (weights : List (Nat × List ℝ)) (alphas : List (Nat × ℝ))
    (c temp : ℝ) (n : Nat) (_ht : 0 < temp)
    (_hk : weights.map Prod.fst = alphas.map Prod.fst) :
    compute_softmax_weighted_avg weights (alphas.map (fun p => (p.1, p.2 + c))) temp n
      = compute_softmax_weighted_avg weights alphas temp n := by
  rw [compute_softmax_weighted_avg, compute_softmax_weighted_avg, List.length_map]
  by_cases hcond : alphas.length = n ∧ weights.length = n ∧ 0 < n
  · rw [if_pos hcond, if_pos hcond]
    have hne : alphas.map Prod.snd ≠ [] := by
      intro h0
      have hl := congrArg List.length h0
      simp only [List.length_map, List.length_nil] at hl
      omega
    have hsnd : (alphas.map (fun p => (p.1, p.2 + c))).map Prod.snd
        = (alphas.map Prod.snd).map (fun x => x + c) := by
      simp [List.map_map]
    rw [hsnd, softmax_vals_map_add temp c _ hne]
  · rw [if_neg hcond, if_neg hcond]

/-- Witness for `softmax_shift_invariance`: shifting the rewards `ar2` by
`10^6` leaves the aggregate of `wr2` unchanged. -/
theorem softmax_shift_invariance_witness :
    compute_softmax_weighted_avg wr2 (ar2.map (fun p => (p.1, p.2 + 1000000))) 1 2
      = compute_softmax_weighted_avg wr2 ar2 1 2 :=
  softmax_shift_invariance wr2 ar2 1000000 1 2 (by norm_num) rfl

/-! ### Exemplar draws in `explore` (claim C6) -/

theorem getD_mem_of_lt {α : Type} (l : List α) (i : Nat) (d : α) (h : i < l.length) :
    l.getD i d ∈ l := by
  rw [List.getD_eq_getElem?_getD, List.getElem?_eq_getElem h]
  exact List.getElem_mem h

theorem explore_helper_spec (exemplar : ℚ) (dist : List ℚ) (args : Args) (g : Rng)
    (hp : args.resample_probability ≤ 0) (hr : ∀ x ∈ g.reals, 0 ≤ x)
    (hex : exemplar ∈ dist) :
    (explore_helper exemplar dist args g).1 ∈ dist
    ∧ (explore_helper exemplar dist args g).2.choices = g.choices
    ∧ ∀ x ∈ (explore_helper exemplar dist args g).2.reals, 0 ≤ x := by
  have hidx : dist.indexOf exemplar < dist.length := List.indexOf_lt_length.mpr hex
  have hr1 : 0 ≤ g.reals.headD 0 := by
    cases hg : g.reals with
    | nil => simp
    | cons y ys => exact hr y (by rw [hg]; exact List.mem_cons_self y ys)
  have hcond : ¬(g.reals.headD 0 < args.resample_probability ∨ exemplar ∉ dist) := by
    push_neg
    exact ⟨by linarith, hex⟩
  have htails : ∀ x ∈ g.reals.tail.tail, 0 ≤ x :=
    fun x hx => hr x (List.tail_subset _ (List.tail_subset _ hx))
  simp only [explore_helper, nextReal]
  rw [if_neg hcond]
  by_cases h2 : (1 : ℚ) / 2 < g.reals.tail.headD 0
  · rw [if_pos h2]
    exact ⟨getD_mem_of_lt _ _ _ (by omega), rfl, htails⟩
  · rw [if_neg h2]
    exact ⟨getD_mem_of_lt _ _ _ (by omega), rfl, htails⟩

theorem explore_param_spec (args : Args) (pname : String) (sel : PolicyState → ℚ)
    (upd : PolicyState → ℚ → PolicyState) (dist : List ℚ) (e a : Nat)
    (acc : (Nat → PolicyState) × Rng)
    (hp : args.resample_probability ≤ 0)
    (hr : ∀ x ∈ acc.2.reals, 0 ≤ x)
    (hsel : sel (acc.1 e) ∈ dist) :
    (explore_param args pname sel upd dist e a acc).2.choices = acc.2.choices
    ∧ (∀ x ∈ (explore_param args pname sel upd dist e a acc).2.reals, 0 ≤ x)
    ∧ (∀ i, (explore_param args pname sel upd dist e a acc).1 i = acc.1 i
        ∨ ∃ v ∈ dist, (explore_param args pname sel upd dist e a acc).1 i
            = upd (acc.1 a) v) := by
  rw [explore_param]
  by_cases hmem : pname ∈ args.explore_params
  · rw [if_pos hmem]
    obtain ⟨hv, hch, hrr⟩ := explore_helper_spec (sel (acc.1 e)) dist args acc.2 hp hr hsel
    refine ⟨hch, hrr, ?_⟩
    intro i
    by_cases hia : i = a
    · subst hia
      exact Or.inr ⟨_, hv, Function.update_same i _ acc.1⟩
    · exact Or.inl (Function.update_noteq hia _ _)
  · rw [if_neg hmem]
    exact ⟨rfl, hr, fun i => Or.inl rfl⟩

theorem explore_step_spec (args : Args) (upper : List Nat)
    (acc : (Nat → PolicyState) × Rng) (agent_id : Nat)
    (hp : args.resample_probability ≤ 0)
    (hr : ∀ x ∈ acc.2.reals, 0 ≤ x)
    (hinv : ∀ i, (acc.1 i).cur_lr ∈ args.lr ∧ (acc.1 i).gamma ∈ args.gammas
      ∧ (acc.1 i).entropy_coeff ∈ args.entropy_coeffs) :
    (explore_step args upper acc agent_id).2.choices = acc.2.choices.tail
    ∧ (∀ x ∈ (explore_step args upper acc agent_id).2.reals, 0 ≤ x)
    ∧ (∀ i, ((explore_step args upper acc agent_id).1 i).cur_lr ∈ args.lr
      ∧ ((explore_step args upper acc agent_id).1 i).gamma ∈ args.gammas
      ∧ ((explore_step args upper acc agent_id).1 i).entropy_coeff ∈ args.entropy_coeffs) := by
  rw [explore_step]
  simp only [pyChoice]
  set E := upper.getD (acc.2.choices.headD 0 % upper.length) 0 with hE
  set G0 : Rng := { acc.2 with choices := acc.2.choices.tail } with hG0
  set A0 : (Nat → PolicyState) × Rng := (acc.1, G0) with hA0
  have hr0 : ∀ x ∈ A0.2.reals, 0 ≤ x := hr
  have hinv0 : ∀ i, (A0.1 i).cur_lr ∈ args.lr ∧ (A0.1 i).gamma ∈ args.gammas
      ∧ (A0.1 i).entropy_coeff ∈ args.entropy_coeffs := hinv
  obtain ⟨hc1, hr1, hm1⟩ := explore_param_spec args "lr" (fun p => p.cur_lr)
    (fun p v => { p with lr_schedule := v }) args.lr E agent_id A0 hp hr0 (hinv0 E).1
  set A1 := explore_param args "lr" (fun p => p.cur_lr)
    (fun p v => { p with lr_schedule := v }) args.lr E agent_id A0 with hA1
  have hinv1 : ∀ i, (A1.1 i).cur_lr ∈ args.lr ∧ (A1.1 i).gamma ∈ args.gammas
      ∧ (A1.1 i).entropy_coeff ∈ args.entropy_coeffs := by
    intro i
    rcases hm1 i with h | ⟨v, _, h⟩ <;> rw [h]
    · exact hinv0 i
    · exact ⟨(hinv0 agent_id).1, (hinv0 agent_id).2.1, (hinv0 agent_id).2.2⟩
  obtain ⟨hc2, hr2, hm2⟩ := explore_param_spec args "gamma" (fun p => p.gamma)
    (fun p v => { p with gamma := v }) args.gammas E agent_id A1 hp hr1 (hinv1 E).2.1
  set A2 := explore_param args "gamma" (fun p => p.gamma)
    (fun p v => { p with gamma := v }) args.gammas E agent_id A1 with hA2
  have hinv2 : ∀ i, (A2.1 i).cur_lr ∈ args.lr ∧ (A2.1 i).gamma ∈ args.gammas
      ∧ (A2.1 i).entropy_coeff ∈ args.entropy_coeffs := by
    intro i
    rcases hm2 i with h | ⟨v, hv, h⟩ <;> rw [h]
    · exact hinv1 i
    · exact ⟨(hinv1 agent_id).1, hv, (hinv1 agent_id).2.2⟩
  obtain ⟨hc3, hr3, hm3⟩ := explore_param_spec args "entropy_coeff"
    (fun p => p.entropy_coeff) (fun p v => { p with entropy_coeff := v })
    args.entropy_coeffs E agent_id A2 hp hr2 (hinv2 E).2.2
  set A3 := explore_param args "entropy_coeff" (fun p => p.entropy_coeff)
    (fun p v => { p with entropy_coeff := v }) args.entropy_coeffs E agent_id A2 with hA3
  have hinv3 : ∀ i, (A3.1 i).cur_lr ∈ args.lr ∧ (A3.1 i).gamma ∈ args.gammas
      ∧ (A3.1 i).entropy_coeff ∈ args.entropy_coeffs := by
    intro i
    rcases hm3 i with h | ⟨v, hv, h⟩ <;> rw [h]
    · exact hinv2 i
    · exact ⟨(hinv2 agent_id).1, (hinv2 agent_id).2.1, hv⟩
  refine ⟨?_, hr3, hinv3⟩
  rw [hc3, hc2, hc1]

theorem explore_fold_choices (args : Args) (upper : List Nat)
    (hp : args.resample_probability ≤ 0) :
    ∀ (L : List Nat) (acc : (Nat → PolicyState) × Rng),
      (∀ x ∈ acc.2.reals, 0 ≤ x) →
      (∀ i, (acc.1 i).cur_lr ∈ args.lr ∧ (acc.1 i).gamma ∈ args.gammas
        ∧ (acc.1 i).entropy_coeff ∈ args.entropy_coeffs) →
      (L.foldl (explore_step args upper) acc).2.choices
        = acc.2.choices.drop L.length := by
  intro L
  induction L with
  | nil => intro acc _ _; simp
  | cons x xs ih =>
    intro acc hr hinv
    obtain ⟨hch, hrr, hii⟩ := explore_step_spec args upper acc x hp hr hinv
    rw [List.foldl_cons, ih _ hrr hii, hch, List.length_cons, ← List.drop_one,
      List.drop_drop, Nat.add_comm]

/-- Claim C6 (amended): `explore` consumes exactly ONE `random.choice` draw
per lower-quantile agent — the single drawn exemplar is reused for all of
that agent's tunable parameters — rather than one draw per parameter per
agent.  (Hypotheses: resampling is disabled and every current hyperparameter
value lies in its distribution, so `explore_helper` never falls into its own
`random.choice` branch; the `random.random()` stream is non-negative, as real
`random()` outputs are.) -/
theorem explore_one_choice_per_low_agent (args : Args)
    (policy_reward_mean : List (Nat × ℚ)) (pols : Nat → PolicyState) (g : Rng)
    (hp : args.resample_probability ≤ 0)
    (hr : ∀ x ∈ g.reals, 0 ≤ x)
    (hinv : ∀ i, (pols i).cur_lr ∈ args.lr ∧ (pols i).gamma ∈ args.gammas
      ∧ (pols i).entropy_coeff ∈ args.entropy_coeffs) :
    (explore args policy_reward_mean pols g).2.choices =
      g.choices.drop
        (lower_quantile args.quantile args.num_agents policy_reward_mean).length := by
  rw [explore]
  exact explore_fold_choices args _ hp _ (pols, g) hr hinv

/-- Witness for `explore_one_choice_per_low_agent` in the `eArgs` scenario:
two lower-quantile agents, so exactly two of the six oracle entries are
consumed. -/
theorem explore_one_choice_per_low_agent_witness :
    (explore eArgs rw4 ePols eRng).2.choices =
      eRng.choices.drop (lower_quantile eArgs.quantile eArgs.num_agents rw4).length :=
  explore_one_choice_per_low_agent eArgs rw4 ePols eRng (by norm_num [eArgs])
    (fun x hx => by
      rw [eRng] at hx
      simp only [List.eq_of_mem_replicate hx]
      norm_num)
    (fun i => by
      simp only [ePols]
      split_ifs <;> exact ⟨by decide, by decide, by decide⟩)

/-! ### The `fed_learn` callback (claims C1, C7) -/

/-- Counterexample to claim C1: on a would-be federation iteration (iteration
4, interval 2) with an EMPTY reward signal, `fed_learn` annotates the result
`federated = "Federation with 1"` (the label is assigned on line 215 of the
source before `softmax_reward_weighted_update` checks for emptiness), not
`"No federation"` as claimed. -/
theorem fed_learn_empty_federation_label_cex :
    Option.map (fun x => x.2.1.federated) (fed_learn fArgs fTr fResEmpty gRng)
      = some ("Federation with " ++ toString fArgs.temp)
    ∧ "Federation with " ++ toString fArgs.temp ≠ "No federation" :=
  ⟨rfl, by decide⟩

/-- Claim C1 (amended): on a would-be federation iteration
(`training_iteration > 1`, `training_iteration % interval == 0`) whose reward
signal is empty, no weights or policies are mutated and the random oracle is
untouched (the update soft-skips), but the result record is annotated
`federated = "Federation with {temp}"` — the label is written before the
emptiness check — rather than `"No federation"`. -/
theorem fed_learn_empty_federation_passthrough (args : Args) (tr : Trainer)
    (result : TrainResult) (g : Rng) (h1 : result.policy_reward_mean = [])
    (h2 : 1 < result.training_iteration)
    (h3 : result.training_iteration % args.interval = 0) :
    fed_learn args tr result g = some (tr,
      { result with
        timesteps_total := result.num_steps_trained
        episode_reward_mean := NpF.nonfin
        episode_reward_best := NpF.nonfin
        federated := "Federation with " ++ toString args.temp }, g) := by
  have hne : ¬(result.training_iteration = 1) := by omega
  simp [fed_learn, softmax_reward_weighted_update, h1, hne, h3]

/-- Witness for `fed_learn_empty_federation_passthrough` at iteration 4,
interval 2. -/
theorem fed_learn_empty_federation_passthrough_witness :
    fed_learn fArgs fTr fResEmpty gRng = some (fTr,
      { fResEmpty with
        timesteps_total := fResEmpty.num_steps_trained
        episode_reward_mean := NpF.nonfin
        episode_reward_best := NpF.nonfin
        federated := "Federation with " ++ toString fArgs.temp }, gRng) :=
  fed_learn_empty_federation_passthrough fArgs fTr fResEmpty gRng rfl (by decide) rfl

/-- Counterexample to claim C7: on a pass-through iteration the input record
has `timesteps_total = 5` and `info["num_steps_trained"] = 7`; `fed_learn`
overwrites `timesteps_total` with 7 (source line 208), so `timesteps_total`
is NOT left unchanged. -/
theorem fed_learn_timesteps_cex :
    fResPass.timesteps_total = 5
    ∧ Option.map (fun x => x.2.1.timesteps_total) (fed_learn fArgs fTr fResPass gRng)
        = some 7 :=
  ⟨rfl, rfl⟩

/-- Claim C7 (amended): whenever `fed_learn` returns, the result record's
`training_iteration`, `policy_reward_mean` and `info` payload are unchanged,
and the written fields are exactly `timesteps_total` (set to
`info["num_steps_trained"]`, contradicting the claim that it is untouched),
`episode_reward_mean`, `episode_reward_best` and `federated`. -/
theorem fed_learn_written_fields (args : Args) (tr : Trainer) (result : TrainResult)
    (g : Rng) (tr1 : Trainer) (result1 : TrainResult) (g1 : Rng)
    (h : fed_learn args tr result g = some (tr1, result1, g1)) :
    result1.training_iteration = result.training_iteration
    ∧ result1.policy_reward_mean = result.policy_reward_mean
    ∧ result1.num_steps_trained = result.num_steps_trained
    ∧ result1.timesteps_total = result.num_steps_trained := by
  simp only [fed_learn] at h
  split at h
  · simp only [Option.some.injEq, Prod.mk.injEq] at h
    obtain ⟨-, hres, -⟩ := h
    subst hres
    exact ⟨rfl, rfl, rfl, rfl⟩
  · split at h
    · split at h
      · exact absurd h (by simp)
      · simp only [Option.some.injEq, Prod.mk.injEq] at h
        obtain ⟨-, hres, -⟩ := h
        subst hres
        exact ⟨rfl, rfl, rfl, rfl⟩
    · simp only [Option.some.injEq, Prod.mk.injEq] at h
      obtain ⟨-, hres, -⟩ := h
      subst hres
      exact ⟨rfl, rfl, rfl, rfl⟩

/-- Witness for `fed_learn_written_fields` on the pass-through record
`fResPass`. -/
theorem fed_learn_written_fields_witness :
    fResPassOut.training_iteration = fResPass.training_iteration
    ∧ fResPassOut.policy_reward_mean = fResPass.policy_reward_mean
    ∧ fResPassOut.num_steps_trained = fResPass.num_steps_trained
    ∧ fResPassOut.timesteps_total = fResPass.num_steps_trained :=
  fed_learn_written_fields fArgs fTr fResPass gRng fTr fResPassOut gRng rfl

end Fed
